import Mathlib

/-!
Shallow embedding of the introspection repository's watcher/event
aggregation subsystem.

Data model (from the source file declaring StateChange, StateSnapshot and
ComponentEvent): a typed transition StateChange with identity, label,
old/new state and timestamp, and the type-erased StateSnapshot envelope.
Time values are modelled as natural-number ticks and the erased payload
of a StateSnapshot as a type parameter A shared by all producers of one
aggregation call (Go's reflection treats every state type uniformly, so a
single erased payload type is faithful for the aggregation path).

Concurrency model: each worker goroutine spawned by AggregateWatchers,
AggregateEvents, and by WatcherAdapter.Snapshots runs the same loop
shape: a plain blocking receive from the producer's channel (NOT raced
against the context), then a select racing a send on the shared bounded
output channel against ctx.Done().  We embed this loop as a small-step
transition system MState/Step: each worker has a phase (about to
receive, holding a value to send, or returned), a list of items its
producer will still emit, and a flag saying whether the producer
eventually closes its channel.  The output channel is a bounded buffer;
the consumer and the cancellation of the context are environment steps.
Ghost fields (sent histories, provenance tags on buffered items, the
producer's full emission list) record history only and never influence
which steps are enabled.
-/

namespace Introspection

/-- StateChange models the Go struct of the same name: a typed state
transition carrying identity, a component-type label, the old and new
state values and a timestamp (modelled as a natural-number tick). -/
structure StateChange (A : Type) where
  ComponentID : String
  ComponentType : String
  OldState : A
  NewState : A
  Timestamp : Nat
deriving DecidableEq

/-- StateSnapshot models the Go struct of the same name: the type-erased
envelope for cross-domain aggregation.  The Go Payload field has type
any; here it has the erased payload type A. -/
structure StateSnapshot (A : Type) where
  ComponentID : String
  ComponentType : String
  Timestamp : Nat
  Payload : A
deriving DecidableEq

/-- ComponentEvent models the data carried by the Go interface of the
same name: identity, component type, timestamp, event kind. -/
structure ComponentEvent where
  ComponentID : String
  ComponentType : String
  Timestamp : Nat
  EventType : String
deriving DecidableEq

/-- ProducerModel is the behaviour, relevant to AggregateWatchers, of one
value passed in its variadic watchers list: whether it implements the
Component interface (and if so what its ComponentType method returns),
whether reflection finds a Watch method on it, how many results that
method returns, the sequence of transitions its watch channel will
carry, and whether that channel is eventually closed. -/
structure ProducerModel (A : Type) where
  componentType : Option String
  hasWatchMethod : Bool
  watchNumResults : Nat
  transitions : List (StateChange A)
  closes : Bool
deriving DecidableEq

/-- GoIface models a Go interface value holding a producer: none is the
nil interface value. -/
abbrev GoIface (A : Type) : Type := Option (ProducerModel A)

/-- inferComponentType mirrors the Go helper of the same name: nil maps
to the empty string; a value implementing Component yields whatever its
ComponentType method returns; anything else yields the empty string. -/
def inferComponentType {A : Type} : GoIface A → String
  | none => ""
  | some p =>
    match p.componentType with
    | some t => t
    | none => ""

/-- TypedWatcherModel is the behaviour, relevant to
WatcherAdapter.Snapshots, of a wrapped TypedWatcher: the label the
watcher itself would report (ignored by the adapter), the transitions
its Watch channel carries, and whether that channel eventually closes. -/
structure TypedWatcherModel (A : Type) where
  componentType : Option String
  transitions : List (StateChange A)
  closes : Bool
deriving DecidableEq

/-- WatcherAdapter models the Go struct of the same name: the label
supplied at construction plus the wrapped watcher. -/
structure WatcherAdapter (A : Type) where
  componentType : String
  watcher : TypedWatcherModel A
deriving DecidableEq

/-- NewWatcherAdapter mirrors the Go constructor of the same name. -/
def NewWatcherAdapter {A : Type} (componentType : String) (w : TypedWatcherModel A) :
    WatcherAdapter A :=
  { componentType := componentType, watcher := w }

/-- mkSnapshot is the snapshot literal built both by the worker goroutine
of AggregateWatchers and by WatcherAdapter.Snapshots: ComponentID and
Timestamp copied from the change, ComponentType taken from the label,
Payload set to the change's NewState. -/
def mkSnapshot {A : Type} (label : String) (c : StateChange A) : StateSnapshot A :=
  { ComponentID := c.ComponentID
    ComponentType := label
    Timestamp := c.Timestamp
    Payload := c.NewState }

/-- EventSourceModel is the behaviour of one EventSource passed to
AggregateEvents: the events its channel carries and whether the channel
eventually closes. -/
structure EventSourceModel where
  events : List ComponentEvent
  closes : Bool
deriving DecidableEq

/-- Phase of a worker goroutine: recv is the blocking receive at the top
of its loop, send b is the select that races sending b on the output
channel against ctx.Done, done means the goroutine has returned. -/
inductive Phase (B : Type) where
  | recv : Phase B
  | send (b : B) : Phase B
  | done : Phase B
deriving DecidableEq

/-- Worker is the state of one worker goroutine.  tag is the label it
stamps on outgoing items, pending the items its producer will still
emit, closes whether the producer eventually closes its channel.  The
ghost field sent records the items the worker has successfully sent, in
order; the ghost field emitted records the producer's full emission
list, fixed at spawn time. -/
structure Worker (A B : Type) where
  tag : String
  phase : Phase B
  pending : List A
  closes : Bool
  sent : List B
  emitted : List A
deriving DecidableEq

/-- MState is the global state of one aggregation call: the worker
goroutines, the bounded output buffer (each entry ghost-tagged with the
index of the sending worker), the items the consumer has taken off the
channel in order, whether ctx.Done has fired, and whether the output
channel has been closed. -/
structure MState (A B : Type) where
  workers : List (Worker A B)
  buf : List (Nat × B)
  delivered : List (Nat × B)
  cancelled : Bool
  outClosed : Bool
deriving DecidableEq

/-- Step is the small-step semantics of the aggregation loop shape shared
by AggregateWatchers, AggregateEvents and WatcherAdapter.Snapshots.
cap is the output channel capacity (64 for the aggregators, 10 for the
adapter) and conv the conversion a worker applies to a received item
(the snapshot literal for the state paths, the identity for events).
The receive at the top of the loop is a plain channel receive, so it has
no case racing it against cancellation: a worker whose producer neither
emits nor closes takes no step, cancelled or not.  The send is a select
against ctx.Done, so it has both a success case and an abandon case. -/
inductive Step {A B : Type} (cap : Nat) (conv : String → A → B) :
    MState A B → MState A B → Prop where
  | recvItem (s : MState A B) (i : Nat) (w : Worker A B) (c : A) (rest : List A)
      (hw : s.workers[i]? = some w) (hph : w.phase = Phase.recv)
      (hpe : w.pending = c :: rest) :
      Step cap conv s
        { s with workers := (s.workers.set i
            { w with phase := Phase.send (conv w.tag c), pending := rest }) }
  | recvClosed (s : MState A B) (i : Nat) (w : Worker A B)
      (hw : s.workers[i]? = some w) (hph : w.phase = Phase.recv)
      (hpe : w.pending = []) (hcl : w.closes = true) :
      Step cap conv s
        { s with workers := s.workers.set i { w with phase := Phase.done } }
  | sendOk (s : MState A B) (i : Nat) (w : Worker A B) (b : B)
      (hw : s.workers[i]? = some w) (hph : w.phase = Phase.send b)
      (hcap : s.buf.length < cap) :
      Step cap conv s
        { s with
            workers := (s.workers.set i
              { w with phase := Phase.recv, sent := w.sent ++ [b] })
            buf := s.buf ++ [(i, b)] }
  | sendCancel (s : MState A B) (i : Nat) (w : Worker A B) (b : B)
      (hw : s.workers[i]? = some w) (hph : w.phase = Phase.send b)
      (hca : s.cancelled = true) :
      Step cap conv s
        { s with workers := s.workers.set i { w with phase := Phase.done } }
  | cancel (s : MState A B) (hca : s.cancelled = false) :
      Step cap conv s { s with cancelled := true }
  | consume (s : MState A B) (p : Nat × B) (rest : List (Nat × B))
      (hbuf : s.buf = p :: rest) :
      Step cap conv s { s with buf := rest, delivered := s.delivered ++ [p] }
  | closeOut (s : MState A B)
      (hall : ∀ w ∈ s.workers, w.phase = Phase.done)
      (hop : s.outClosed = false) :
      Step cap conv s { s with outClosed := true }

/-- Steps is the reflexive-transitive closure of Step: all states an
aggregation call can reach from a given state. -/
abbrev Steps {A B : Type} (cap : Nat) (conv : String → A → B) :
    MState A B → MState A B → Prop :=
  Relation.ReflTransGen (Step cap conv)

/-- StepsN counts the steps of an execution, to express bounded-time
guarantees. -/
inductive StepsN {A B : Type} (cap : Nat) (conv : String → A → B) :
    Nat → MState A B → MState A B → Prop where
  | refl (s : MState A B) : StepsN cap conv 0 s s
  | tail {n : Nat} {s s2 s3 : MState A B} :
      StepsN cap conv n s s2 → Step cap conv s2 s3 → StepsN cap conv (n + 1) s s3

/-- aggCap is the capacity of the output channel allocated by both
AggregateWatchers and AggregateEvents. -/
def aggCap : Nat := 64

/-- adapterCap is the capacity of the channel allocated by
WatcherAdapter.Snapshots. -/
def adapterCap : Nat := 10

/-- mkWorker builds the spawn-time state of one worker goroutine. -/
def mkWorker {A B : Type} (tag : String) (items : List A) (closes : Bool) :
    Worker A B :=
  { tag := tag, phase := Phase.recv, pending := items, closes := closes
    sent := [], emitted := items }

/-- capableEntry mirrors the per-producer gate of the setup loop of
AggregateWatchers: compute inferComponentType and skip on the empty
string, then skip when reflection finds no Watch method, then skip when
the call returns no results; a surviving producer gets one worker
carrying the label from the capability check. -/
def capableEntry {A : Type} (v : GoIface A) :
    Option (Worker (StateChange A) (StateSnapshot A)) :=
  let compType := inferComponentType v
  if compType = "" then none
  else
    match v with
    | none => none
    | some p =>
      if p.hasWatchMethod = false then none
      else if p.watchNumResults = 0 then none
      else some (mkWorker compType p.transitions p.closes)

/-- initWatchers is the state of an AggregateWatchers call right after
its setup loop ran: one worker per producer that passed the capability
gate, empty buffer, nothing delivered, context not yet cancelled,
output open. -/
def initWatchers {A : Type} (ws : List (GoIface A)) :
    MState (StateChange A) (StateSnapshot A) :=
  { workers := ws.filterMap capableEntry
    buf := [], delivered := [], cancelled := false, outClosed := false }

/-- initEvents is the state of an AggregateEvents call right after its
setup loop ran: one worker per source, unconditionally. -/
def initEvents (srcs : List EventSourceModel) : MState ComponentEvent ComponentEvent :=
  { workers := srcs.map (fun src => mkWorker "" src.events src.closes)
    buf := [], delivered := [], cancelled := false, outClosed := false }

/-- initAdapter is the state of a WatcherAdapter.Snapshots call right
after it spawned its single forwarding goroutine. -/
def initAdapter {A : Type} (a : WatcherAdapter A) :
    MState (StateChange A) (StateSnapshot A) :=
  { workers := [mkWorker a.componentType a.watcher.transitions a.watcher.closes]
    buf := [], delivered := [], cancelled := false, outClosed := false }

/-- eventConv is the conversion an AggregateEvents worker applies to a
received event: it forwards the event unchanged. -/
def eventConv : String → ComponentEvent → ComponentEvent := fun _ e => e

/-- phaseList is the item a worker is still holding for the output
channel in a given phase, as a list. -/
def phaseList {B : Type} : Phase B → List B
  | Phase.send b => [b]
  | _ => []

/-- emitEq says the worker's successful sends, its held item, and the
conversions of its still-pending items together account for every item
its producer emits, in order. -/
def emitEq {A B : Type} (conv : String → A → B) (w : Worker A B) : Prop :=
  w.emitted.map (conv w.tag) = w.sent ++ phaseList w.phase ++ w.pending.map (conv w.tag)

/-- outputsOf is the subsequence of everything that reached the output
channel (consumed items followed by the still-buffered ones) that was
sent by worker i, in channel order. -/
def outputsOf {A B : Type} (i : Nat) (s : MState A B) : List B :=
  (s.delivered ++ s.buf).filterMap (fun p => if p.fst = i then some p.snd else none)

/-- constPart is the part of a worker's state fixed at spawn time. -/
def constPart {A B : Type} (w : Worker A B) : String × List A × Bool :=
  (w.tag, w.emitted, w.closes)

/-- AllDone says every worker goroutine of the call has returned. -/
def AllDone {A B : Type} (s : MState A B) : Prop :=
  ∀ w ∈ s.workers, w.phase = Phase.done

/-- AggInv is the inductive invariant of the fan-in machine: while the
context is uncancelled the accounting equation emitEq holds exactly and
exited workers have drained their input; unconditionally a worker's
sends form an initial segment of its converted emissions; the channel
contents attributed to worker i are exactly its send history in order;
and a closed output implies every worker already returned. -/
structure AggInv {A B : Type} (conv : String → A → B) (s : MState A B) : Prop where
  emit_ok : s.cancelled = false →
    ∀ w ∈ s.workers, emitEq conv w ∧ (w.phase = Phase.done → w.pending = [])
  emit_front : ∀ w ∈ s.workers,
    emitEq conv w ∨ (w.phase = Phase.done ∧ ∃ t, w.emitted.map (conv w.tag) = w.sent ++ t)
  out_sent : ∀ i w, s.workers[i]? = some w → outputsOf i s = w.sent
  closed_done : s.outClosed = true → AllDone s

/-- InitLike captures every spawn-time state of the machine: all workers
freshly spawned, channel empty, nothing delivered, output open. -/
def InitLike {A B : Type} (s : MState A B) : Prop :=
  (∀ w ∈ s.workers, w.phase = Phase.recv ∧ w.sent = [] ∧ w.pending = w.emitted) ∧
  s.buf = [] ∧ s.delivered = [] ∧ s.outClosed = false

/-- phaseWeight and workerWeight build a termination measure: receiving
costs less than holding an item, and every pending input item pays for
the receive and send it will cause. -/
def phaseWeight {B : Type} : Phase B → Nat
  | Phase.recv => 2
  | Phase.send _ => 4
  | Phase.done => 0

def workerWeight {A B : Type} (w : Worker A B) : Nat :=
  3 * w.pending.length + phaseWeight w.phase

/-- stateMeasure strictly decreases along every step of the machine, so
every execution from s takes at most stateMeasure s steps. -/
def stateMeasure {A B : Type} (s : MState A B) : Nat :=
  (s.workers.map workerWeight).sum + s.buf.length +
    (if s.cancelled then 0 else 1) + (if s.outClosed then 0 else 1)

/-- Concrete producers, adapters and states used to evaluate the
verified statements on closed inputs. -/
def c1Prod : ProducerModel Nat :=
  { componentType := some "worker", hasWatchMethod := true, watchNumResults := 1
    transitions := [], closes := true }

def c1Ws : List (GoIface Nat) := [some c1Prod]

def c1W : Worker (StateChange Nat) (StateSnapshot Nat) := mkWorker "worker" [] true

def c1Final : MState (StateChange Nat) (StateSnapshot Nat) :=
  { initWatchers c1Ws with
      workers := ((initWatchers c1Ws).workers.set 0 { c1W with phase := Phase.done }) }

def c2Prod : ProducerModel Nat :=
  { componentType := some "worker", hasWatchMethod := true, watchNumResults := 1
    transitions := [], closes := false }

def c2Ws : List (GoIface Nat) := [some c2Prod]

def c2W : Worker (StateChange Nat) (StateSnapshot Nat) := mkWorker "worker" [] false

def c2Stuck : MState (StateChange Nat) (StateSnapshot Nat) :=
  { initWatchers c2Ws with cancelled := true }

def c2Closing : MState (StateChange Nat) (StateSnapshot Nat) :=
  { workers := [mkWorker "worker" [] true], buf := [], delivered := []
    cancelled := true, outClosed := false }

def c3Prod : ProducerModel Nat :=
  { componentType := some "svc", hasWatchMethod := true, watchNumResults := 1
    transitions := [], closes := true }

def c4Closed : MState (StateChange Nat) (StateSnapshot Nat) :=
  { initWatchers ([] : List (GoIface Nat)) with outClosed := true }

def c4ClosedE : MState ComponentEvent ComponentEvent :=
  { initEvents [] with outClosed := true }

def c5C : StateChange Nat :=
  { ComponentID := "id1", ComponentType := "other-label", OldState := 0
    NewState := 1, Timestamp := 5 }

def c5A : WatcherAdapter Nat :=
  NewWatcherAdapter "adapter-label"
    { componentType := some "watcher-label", transitions := [c5C], closes := true }

def c5Snap : StateSnapshot Nat := mkSnapshot "adapter-label" c5C

def c5W : Worker (StateChange Nat) (StateSnapshot Nat) :=
  { tag := "adapter-label", phase := Phase.recv, pending := [], closes := true
    sent := [c5Snap], emitted := [c5C] }

def c5WMid : Worker (StateChange Nat) (StateSnapshot Nat) :=
  { tag := "adapter-label", phase := Phase.send c5Snap, pending := [], closes := true
    sent := [], emitted := [c5C] }

def c5Mid : MState (StateChange Nat) (StateSnapshot Nat) :=
  { workers := [c5WMid], buf := [], delivered := []
    cancelled := false, outClosed := false }

def c5Final : MState (StateChange Nat) (StateSnapshot Nat) :=
  { workers := [c5W], buf := [(0, c5Snap)], delivered := []
    cancelled := false, outClosed := false }

def c6Ws : List (GoIface Nat) := [none]

def c7A : WatcherAdapter Nat :=
  NewWatcherAdapter "lbl" { componentType := none, transitions := [], closes := false }

def c7W : Worker (StateChange Nat) (StateSnapshot Nat) := mkWorker "lbl" [] false

def c7Stuck : MState (StateChange Nat) (StateSnapshot Nat) :=
  { initAdapter c7A with cancelled := true }

def c7B : WatcherAdapter Nat :=
  NewWatcherAdapter "lbl" { componentType := none, transitions := [], closes := true }

def c8Prod : ProducerModel Nat :=
  { componentType := some "svc-a", hasWatchMethod := true, watchNumResults := 1
    transitions := [], closes := true }

def c8Ws : List (GoIface Nat) := [some c8Prod]

def c8W : Worker (StateChange Nat) (StateSnapshot Nat) := mkWorker "svc-a" [] true

def c9Prod : ProducerModel Nat :=
  { componentType := some "", hasWatchMethod := true, watchNumResults := 1
    transitions := [], closes := true }

def c10Prod : ProducerModel Nat :=
  { componentType := some "worker", hasWatchMethod := true, watchNumResults := 1
    transitions := [], closes := true }

theorem lt_length_of_getElem? {C : Type} {l : List C} {i : Nat} {a : C}
    (h : l[i]? = some a) : i < l.length :=
  (List.getElem?_eq_some.mp h).1

theorem set_of_getElem? {C : Type} {l : List C} {i : Nat} {a : C}
    (h : l[i]? = some a) : l.set i a = l := by
  apply List.ext_getElem?
  intro j
  by_cases hj : i = j
  · subst hj
    simp [List.getElem?_set, lt_length_of_getElem? h, h]
  · simp [List.getElem?_set, hj]

theorem map_set_same {C D : Type} {l : List C} {i : Nat} {w w2 : C} (g : C → D)
    (h : l[i]? = some w) (hg : g w2 = g w) : (l.set i w2).map g = l.map g := by
  rw [List.map_set, hg]
  refine set_of_getElem? ?_
  rw [List.getElem?_map, h]
  rfl

/-- Every step keeps each worker's spawn-time data (label, emission
list, closing behaviour) and the worker list's length unchanged. -/
theorem step_constParts {A B : Type} {cap : Nat} {conv : String → A → B}
    {s s2 : MState A B} (h : Step cap conv s s2) :
    s2.workers.map constPart = s.workers.map constPart := by
  cases h with
  | recvItem i w c rest hw hph hpe => exact map_set_same constPart hw rfl
  | recvClosed i w hw hph hpe hcl => exact map_set_same constPart hw rfl
  | sendOk i w b hw hph hcap => exact map_set_same constPart hw rfl
  | sendCancel i w b hw hph hca => exact map_set_same constPart hw rfl
  | cancel hca => rfl
  | consume p rest hbuf => rfl
  | closeOut hall hop => rfl

theorem steps_constParts {A B : Type} {cap : Nat} {conv : String → A → B}
    {s s2 : MState A B} (h : Steps cap conv s s2) :
    s2.workers.map constPart = s.workers.map constPart := by
  induction h with
  | refl => rfl
  | tail h1 h2 ih => rw [step_constParts h2, ih]

/-- Cancellation is monotone: no step resets a fired context. -/
theorem step_cancelled_mono {A B : Type} {cap : Nat} {conv : String → A → B}
    {s s2 : MState A B} (h : Step cap conv s s2) (hc : s.cancelled = true) :
    s2.cancelled = true := by
  cases h <;> simp_all

theorem Steps.cancelled_back {A B : Type} {cap : Nat} {conv : String → A → B}
    {s s2 : MState A B} (h : Steps cap conv s s2) (hc : s2.cancelled = false) :
    s.cancelled = false := by
  induction h with
  | refl => exact hc
  | tail h1 h2 ih =>
    refine ih ?_
    by_contra hb
    rw [Bool.not_eq_false] at hb
    simp [step_cancelled_mono h2 hb] at hc

theorem out_sent_set {A B : Type} {s : MState A B} {i : Nat} {w wN : Worker A B}
    (hw : s.workers[i]? = some w) (hsent : wN.sent = w.sent)
    (hout : ∀ j w2, s.workers[j]? = some w2 → outputsOf j s = w2.sent) :
    ∀ j w2, (s.workers.set i wN)[j]? = some w2 → outputsOf j s = w2.sent := by
  intro j w2 hj
  by_cases hij : i = j
  · subst hij
    rw [List.getElem?_set_self (lt_length_of_getElem? hw)] at hj
    cases hj
    rw [hsent]
    exact hout i w hw
  · rw [List.getElem?_set_ne hij] at hj
    exact hout j w2 hj

theorem filterMap_tag_snoc {B : Type} (j i : Nat) (b : B) (d bf : List (Nat × B)) :
    (d ++ (bf ++ [(i, b)])).filterMap
        (fun p => if p.fst = j then some p.snd else none) =
      ((d ++ bf).filterMap (fun p => if p.fst = j then some p.snd else none)) ++
        (if i = j then [b] else []) := by
  by_cases hij : i = j <;>
    simp [List.filterMap_append, hij]

/-- Every step of the machine preserves the invariant AggInv. -/
theorem inv_step {A B : Type} {cap : Nat} {conv : String → A → B} {s s2 : MState A B}
    (hinv : AggInv conv s) (h : Step cap conv s s2) : AggInv conv s2 := by
  obtain ⟨hok, hfr, hout, hcd⟩ := hinv
  cases h with
  | recvItem i w c rest hw hph hpe =>
    have hwmem := List.getElem?_mem hw
    refine ⟨?_, ?_, out_sent_set hw rfl hout, ?_⟩
    · intro hca x hx
      rcases List.mem_or_eq_of_mem_set hx with hx | rfl
      · exact hok hca x hx
      · have he := (hok hca w hwmem).1
        rw [emitEq, hph, hpe] at he
        refine ⟨?_, by intro hd; simp at hd⟩
        rw [emitEq]
        simp only [phaseList] at he ⊢
        simpa using he
    · intro x hx
      rcases List.mem_or_eq_of_mem_set hx with hx | rfl
      · exact hfr x hx
      · rcases hfr w hwmem with he | ⟨hd, _⟩
        · rw [emitEq, hph, hpe] at he
          refine Or.inl ?_
          rw [emitEq]
          simp only [phaseList] at he ⊢
          simpa using he
        · rw [hph] at hd
          simp at hd
    · intro hoc
      have hdw := hcd hoc w hwmem
      rw [hph] at hdw
      simp at hdw
  | recvClosed i w hw hph hpe hcl =>
    have hwmem := List.getElem?_mem hw
    refine ⟨?_, ?_, out_sent_set hw rfl hout, ?_⟩
    · intro hca x hx
      rcases List.mem_or_eq_of_mem_set hx with hx | rfl
      · exact hok hca x hx
      · have he := (hok hca w hwmem).1
        rw [emitEq, hph, hpe] at he
        refine ⟨?_, fun _ => hpe⟩
        rw [emitEq, hpe]
        simp only [phaseList] at he ⊢
        simpa using he
    · intro x hx
      rcases List.mem_or_eq_of_mem_set hx with hx | rfl
      · exact hfr x hx
      · rcases hfr w hwmem with he | ⟨hd, _⟩
        · rw [emitEq, hph, hpe] at he
          refine Or.inl ?_
          rw [emitEq, hpe]
          simp only [phaseList] at he ⊢
          simpa using he
        · rw [hph] at hd
          simp at hd
    · intro hoc
      have hdw := hcd hoc w hwmem
      rw [hph] at hdw
      simp at hdw
  | sendOk i w b hw hph hcap =>
    have hwmem := List.getElem?_mem hw
    refine ⟨?_, ?_, ?_, ?_⟩
    · intro hca x hx
      rcases List.mem_or_eq_of_mem_set hx with hx | rfl
      · exact hok hca x hx
      · have he := (hok hca w hwmem).1
        rw [emitEq, hph] at he
        refine ⟨?_, by intro hd; simp at hd⟩
        rw [emitEq]
        simp only [phaseList] at he ⊢
        simpa using he
    · intro x hx
      rcases List.mem_or_eq_of_mem_set hx with hx | rfl
      · exact hfr x hx
      · rcases hfr w hwmem with he | ⟨hd, _⟩
        · rw [emitEq, hph] at he
          refine Or.inl ?_
          rw [emitEq]
          simp only [phaseList] at he ⊢
          simpa using he
        · rw [hph] at hd
          simp at hd
    · intro j w2 hj
      show outputsOf j _ = w2.sent
      rw [outputsOf]
      by_cases hij : i = j
      · subst hij
        rw [List.getElem?_set_self (lt_length_of_getElem? hw)] at hj
        cases hj
        rw [filterMap_tag_snoc]
        have := hout i w hw
        rw [outputsOf] at this
        simp [this]
      · rw [List.getElem?_set_ne hij] at hj
        rw [filterMap_tag_snoc]
        have := hout j w2 hj
        rw [outputsOf] at this
        simp [this, hij]
    · intro hoc
      have hdw := hcd hoc w hwmem
      rw [hph] at hdw
      simp at hdw
  | sendCancel i w b hw hph hca =>
    have hwmem := List.getElem?_mem hw
    refine ⟨?_, ?_, out_sent_set hw rfl hout, ?_⟩
    · intro hcc
      exact absurd hcc (by simp [hca])
    · intro x hx
      rcases List.mem_or_eq_of_mem_set hx with hx | rfl
      · exact hfr x hx
      · rcases hfr w hwmem with he | ⟨hd, _⟩
        · rw [emitEq, hph] at he
          refine Or.inr ⟨rfl, ⟨[b] ++ w.pending.map (conv w.tag), ?_⟩⟩
          simp only [phaseList] at he
          simpa using he
        · rw [hph] at hd
          simp at hd
    · intro hoc
      have hdw := hcd hoc w hwmem
      rw [hph] at hdw
      simp at hdw
  | cancel hca =>
    refine ⟨?_, hfr, hout, hcd⟩
    intro hcc
    exact absurd hcc (by simp)
  | consume p rest hbuf =>
    refine ⟨hok, hfr, ?_, hcd⟩
    intro j w2 hj
    have := hout j w2 hj
    rw [outputsOf] at this ⊢
    rw [hbuf] at this
    simpa [List.append_assoc] using this
  | closeOut hall hop =>
    exact ⟨hok, hfr, hout, fun _ => hall⟩

/-- The invariant holds in every state reachable from a state where it
holds. -/
theorem inv_steps {A B : Type} {cap : Nat} {conv : String → A → B} {s0 s : MState A B}
    (h0 : AggInv conv s0) (h : Steps cap conv s0 s) : AggInv conv s := by
  induction h with
  | refl => exact h0
  | tail h1 h2 ih => exact inv_step ih h2

/-- Every spawn-time state satisfies the invariant. -/
theorem initLike_inv {A B : Type} (conv : String → A → B) {s : MState A B}
    (h : InitLike s) : AggInv conv s := by
  obtain ⟨hw, hb, hd, ho⟩ := h
  refine ⟨?_, ?_, ?_, ?_⟩
  · intro _ w hmem
    obtain ⟨hph, hs, hpe⟩ := hw w hmem
    refine ⟨?_, ?_⟩
    · rw [emitEq, hph, hs, hpe]
      simp [phaseList]
    · intro hdone
      rw [hph] at hdone
      simp at hdone
  · intro w hmem
    obtain ⟨hph, hs, hpe⟩ := hw w hmem
    refine Or.inl ?_
    rw [emitEq, hph, hs, hpe]
    simp [phaseList]
  · intro i w hi
    obtain ⟨hph, hs, hpe⟩ := hw w (List.getElem?_mem hi)
    simp [outputsOf, hb, hd, hs]
  · intro hoc
    rw [ho] at hoc
    simp at hoc

/-- Characterization of the producers that survive the capability gate
of AggregateWatchers. -/
theorem capableEntry_eq_some {A : Type} {v : GoIface A}
    {w : Worker (StateChange A) (StateSnapshot A)} (h : capableEntry v = some w) :
    ∃ p : ProducerModel A, v = some p ∧ inferComponentType v ≠ "" ∧
      p.hasWatchMethod = true ∧ p.watchNumResults ≠ 0 ∧
      w = mkWorker (inferComponentType v) p.transitions p.closes := by
  cases v with
  | none => simp [capableEntry, inferComponentType] at h
  | some p =>
    simp only [capableEntry] at h
    by_cases h1 : inferComponentType (some p) = ""
    · rw [if_pos h1] at h
      simp at h
    · rw [if_neg h1] at h
      by_cases h2 : p.hasWatchMethod = false
      · rw [if_pos h2] at h
        simp at h
      · rw [if_neg h2] at h
        by_cases h3 : p.watchNumResults = 0
        · rw [if_pos h3] at h
          simp at h
        · rw [if_neg h3] at h
          cases h
          refine ⟨p, rfl, h1, ?_, h3, rfl⟩
          cases hb : p.hasWatchMethod
          · exact absurd hb h2
          · rfl

theorem initWatchers_initLike {A : Type} (ws : List (GoIface A)) :
    InitLike (initWatchers ws) := by
  refine ⟨?_, rfl, rfl, rfl⟩
  intro w hmem
  obtain ⟨v, hv, he⟩ := List.mem_filterMap.mp hmem
  obtain ⟨p, hp1, hp2, hp3, hp4, hwk⟩ := capableEntry_eq_some he
  subst hwk
  exact ⟨rfl, rfl, rfl⟩

theorem initEvents_initLike (srcs : List EventSourceModel) :
    InitLike (initEvents srcs) := by
  refine ⟨?_, rfl, rfl, rfl⟩
  intro w hmem
  obtain ⟨src, hsrc, rfl⟩ := List.mem_map.mp hmem
  exact ⟨rfl, rfl, rfl⟩

theorem initAdapter_initLike {A : Type} (a : WatcherAdapter A) :
    InitLike (initAdapter a) := by
  refine ⟨?_, rfl, rfl, rfl⟩
  intro w hmem
  simp only [initAdapter, List.mem_singleton] at hmem
  subst hmem
  exact ⟨rfl, rfl, rfl⟩

theorem sum_map_set {C : Type} (f : C → Nat) :
    ∀ (l : List C) (i : Nat) (w w2 : C), l[i]? = some w →
      ((l.set i w2).map f).sum + f w = (l.map f).sum + f w2 := by
  intro l
  induction l with
  | nil =>
    intro i w w2 h
    simp at h
  | cons a as ih =>
    intro i w w2 h
    cases i with
    | zero =>
      simp at h
      subst h
      simp [List.set]
      omega
    | succ n =>
      have h2 : as[n]? = some w := by simpa using h
      have h3 := ih n w w2 h2
      rw [List.set_cons_succ, List.map_cons, List.map_cons, List.sum_cons, List.sum_cons]
      omega

/-- Every step strictly decreases the measure: the machine cannot run
forever. -/
theorem step_measure {A B : Type} {cap : Nat} {conv : String → A → B}
    {s s2 : MState A B} (h : Step cap conv s s2) :
    stateMeasure s2 < stateMeasure s := by
  cases h with
  | recvItem i w c rest hw hph hpe =>
    have hsum := sum_map_set workerWeight s.workers i w
      { w with phase := Phase.send (conv w.tag c), pending := rest } hw
    have hfw : workerWeight w = 3 * rest.length + 5 := by
      simp [workerWeight, hph, hpe, phaseWeight]
      omega
    have hfN : workerWeight
        { w with phase := Phase.send (conv w.tag c), pending := rest } =
        3 * rest.length + 4 := by
      simp [workerWeight, phaseWeight]
    simp only [stateMeasure]
    omega
  | recvClosed i w hw hph hpe hcl =>
    have hsum := sum_map_set workerWeight s.workers i w
      { w with phase := Phase.done } hw
    have hfw : workerWeight w = 2 := by
      simp [workerWeight, hph, hpe, phaseWeight]
    have hfN : workerWeight { w with phase := Phase.done } = 0 := by
      simp [workerWeight, hpe, phaseWeight]
    simp only [stateMeasure]
    omega
  | sendOk i w b hw hph hcap =>
    have hsum := sum_map_set workerWeight s.workers i w
      { w with phase := Phase.recv, sent := w.sent ++ [b] } hw
    have hfw : workerWeight w = 3 * w.pending.length + 4 := by
      simp [workerWeight, hph, phaseWeight]
    have hfN : workerWeight { w with phase := Phase.recv, sent := w.sent ++ [b] } =
        3 * w.pending.length + 2 := by
      simp [workerWeight, phaseWeight]
    simp only [stateMeasure, List.length_append, List.length_cons, List.length_nil]
    omega
  | sendCancel i w b hw hph hca =>
    have hsum := sum_map_set workerWeight s.workers i w
      { w with phase := Phase.done } hw
    have hfw : workerWeight w = 3 * w.pending.length + 4 := by
      simp [workerWeight, hph, phaseWeight]
    have hfN : workerWeight { w with phase := Phase.done } = 3 * w.pending.length := by
      simp [workerWeight, phaseWeight]
    simp only [stateMeasure]
    omega
  | cancel hca =>
    simp only [stateMeasure, hca]
    simp
  | consume p rest hbuf =>
    simp only [stateMeasure, hbuf]
    simp
  | closeOut hall hop =>
    simp only [stateMeasure, hop]
    simp

/-- An execution of n steps is possible only when the starting measure
is at least n: exits happen within stateMeasure s steps. -/
theorem stepsN_le_measure {A B : Type} {cap : Nat} {conv : String → A → B}
    {n : Nat} {s s2 : MState A B} (h : StepsN cap conv n s s2) :
    n + stateMeasure s2 ≤ stateMeasure s := by
  induction h with
  | refl s => omega
  | tail h1 h2 ih =>
    have := step_measure h2
    omega

/-- Steps preserve the fact that every worker's producer eventually
closes its channel. -/
theorem closes_all_step {A B : Type} {cap : Nat} {conv : String → A → B}
    {s s2 : MState A B} (h : Step cap conv s s2)
    (hc : ∀ w ∈ s.workers, w.closes = true) : ∀ w ∈ s2.workers, w.closes = true := by
  intro w hw
  have hmap := step_constParts h
  have hm : constPart w ∈ s2.workers.map constPart := List.mem_map_of_mem constPart hw
  rw [hmap] at hm
  obtain ⟨w0, hw0, he⟩ := List.mem_map.mp hm
  have hcl : w0.closes = w.closes := congrArg (fun q => q.2.2) he
  rw [← hcl]
  exact hc w0 hw0

/-- If some worker has not returned, its producer closes its channel,
and the channel has positive capacity, some step is possible without
any cancellation. -/
theorem exists_step_of_not_done {A B : Type} {cap : Nat} {conv : String → A → B}
    {s : MState A B} (hcap : 0 < cap)
    (hccl : ∀ w ∈ s.workers, w.closes = true)
    (hnd : ¬ AllDone s) : ∃ s2, Step cap conv s s2 := by
  rw [AllDone] at hnd
  push_neg at hnd
  obtain ⟨w, hwmem, hwph⟩ := hnd
  obtain ⟨i, hilt, hieq⟩ := List.getElem_of_mem hwmem
  have hw : s.workers[i]? = some w := by
    rw [List.getElem?_eq_getElem hilt, hieq]
  cases hph : w.phase with
  | recv =>
    cases hpe : w.pending with
    | nil => exact ⟨_, Step.recvClosed s i w hw hph hpe (hccl w hwmem)⟩
    | cons c rest => exact ⟨_, Step.recvItem s i w c rest hw hph hpe⟩
  | send b =>
    by_cases hbl : s.buf.length < cap
    · exact ⟨_, Step.sendOk s i w b hw hph hbl⟩
    · cases hbuf : s.buf with
      | nil =>
        rw [hbuf] at hbl
        simp at hbl
        omega
      | cons p rest => exact ⟨_, Step.consume s p rest hbuf⟩
  | done => exact absurd hph hwph

/-- If some worker has not returned, its producer closes its channel,
and cancellation has fired, some step is possible even with a full
buffer. -/
theorem exists_step_cancelled {A B : Type} {cap : Nat} {conv : String → A → B}
    {s : MState A B} (hca : s.cancelled = true)
    (hccl : ∀ w ∈ s.workers, w.closes = true)
    (hnd : ¬ AllDone s) : ∃ s2, Step cap conv s s2 := by
  rw [AllDone] at hnd
  push_neg at hnd
  obtain ⟨w, hwmem, hwph⟩ := hnd
  obtain ⟨i, hilt, hieq⟩ := List.getElem_of_mem hwmem
  have hw : s.workers[i]? = some w := by
    rw [List.getElem?_eq_getElem hilt, hieq]
  cases hph : w.phase with
  | recv =>
    cases hpe : w.pending with
    | nil => exact ⟨_, Step.recvClosed s i w hw hph hpe (hccl w hwmem)⟩
    | cons c rest => exact ⟨_, Step.recvItem s i w c rest hw hph hpe⟩
  | send b => exact ⟨_, Step.sendCancel s i w b hw hph hca⟩
  | done => exact absurd hph hwph

/-- In a state where cancellation has fired, every producer closes its
channel, and no step at all is possible, every worker has returned and
the output channel is closed. -/
theorem stuck_closed {A B : Type} {cap : Nat} {conv : String → A → B}
    {s : MState A B} (hca : s.cancelled = true)
    (hccl : ∀ w ∈ s.workers, w.closes = true)
    (hstuck : ∀ s2, ¬ Step cap conv s s2) :
    AllDone s ∧ s.outClosed = true := by
  have hdone : AllDone s := by
    by_contra hnd
    obtain ⟨s2, hs2⟩ := @exists_step_cancelled A B cap conv s hca hccl hnd
    exact hstuck s2 hs2
  refine ⟨hdone, ?_⟩
  by_contra hoc
  rw [Bool.not_eq_true] at hoc
  exact hstuck _ (Step.closeOut s hdone hoc)

/-- From every state whose workers all have eventually-closing producers
the machine can run to a state where every worker has returned and the
output channel is closed, with no cancellation required. -/
theorem exists_closing_run {A B : Type} {cap : Nat} {conv : String → A → B}
    (hcap : 0 < cap) :
    ∀ (s : MState A B), (∀ w ∈ s.workers, w.closes = true) →
      ∃ s2, Steps cap conv s s2 ∧ AllDone s2 ∧ s2.outClosed = true := by
  have H : ∀ (n : Nat) (s : MState A B), stateMeasure s ≤ n →
      (∀ w ∈ s.workers, w.closes = true) →
      ∃ s2, Steps cap conv s s2 ∧ AllDone s2 ∧ s2.outClosed = true := by
    intro n
    induction n with
    | zero =>
      intro s hm hccl
      refine ⟨s, Relation.ReflTransGen.refl, ?_, ?_⟩
      · intro w hwmem
        obtain ⟨i, hilt, hieq⟩ := List.getElem_of_mem hwmem
        have hw0 : workerWeight w = 0 := by
          have hle : workerWeight w ≤ (s.workers.map workerWeight).sum :=
            List.single_le_sum (by intro x hx; omega) _
              (List.mem_map_of_mem workerWeight hwmem)
          simp only [stateMeasure] at hm
          omega
        rw [workerWeight] at hw0
        cases hph : w.phase with
        | recv =>
          rw [hph] at hw0
          simp [phaseWeight] at hw0
        | send b =>
          rw [hph] at hw0
          simp [phaseWeight] at hw0
        | done => rfl
      · simp only [stateMeasure] at hm
        cases hoc : s.outClosed with
        | true => rfl
        | false =>
          rw [hoc] at hm
          simp at hm
    | succ n ih =>
      intro s hm hccl
      by_cases hdone : AllDone s
      · cases hoc : s.outClosed with
        | true => exact ⟨s, Relation.ReflTransGen.refl, hdone, hoc⟩
        | false =>
          refine ⟨{ s with outClosed := true },
            Relation.ReflTransGen.single (Step.closeOut s hdone hoc), ?_, rfl⟩
          exact hdone
      · obtain ⟨s3, hs3⟩ := @exists_step_of_not_done A B cap conv s hcap hccl hdone
        have hlt := step_measure hs3
        obtain ⟨s2, h2, hd2, ho2⟩ := ih s3 (by omega) (closes_all_step hs3 hccl)
        exact ⟨s2, Relation.ReflTransGen.head hs3 h2, hd2, ho2⟩
  intro s hccl
  exact H (stateMeasure s) s (le_refl _) hccl

theorem steps_cancelled_mono {A B : Type} {cap : Nat} {conv : String → A → B}
    {s s2 : MState A B} (h : Steps cap conv s s2) (hc : s.cancelled = true) :
    s2.cancelled = true := by
  induction h with
  | refl => exact hc
  | tail h1 h2 ih => exact step_cancelled_mono h2 ih

theorem closes_all_steps {A B : Type} {cap : Nat} {conv : String → A → B}
    {s s2 : MState A B} (h : Steps cap conv s s2)
    (hc : ∀ w ∈ s.workers, w.closes = true) : ∀ w ∈ s2.workers, w.closes = true := by
  induction h with
  | refl => exact hc
  | tail h1 h2 ih => exact closes_all_step h2 ih

/-- A worker found at index i in a reachable state keeps the label,
emission list and closing behaviour it was spawned with. -/
theorem worker_const_of_steps {A B : Type} {cap : Nat} {conv : String → A → B}
    {s0 s : MState A B} (h : Steps cap conv s0 s) {i : Nat} {w : Worker A B}
    (hw : s.workers[i]? = some w) :
    ∃ w0, s0.workers[i]? = some w0 ∧ w0.tag = w.tag ∧ w0.emitted = w.emitted ∧
      w0.closes = w.closes := by
  have hmap := steps_constParts h
  have hcw : (s.workers.map constPart)[i]? = some (constPart w) := by
    rw [List.getElem?_map, hw]
    rfl
  rw [hmap, List.getElem?_map] at hcw
  cases hw0 : s0.workers[i]? with
  | none =>
    rw [hw0] at hcw
    simp at hcw
  | some w0 =>
    rw [hw0] at hcw
    have hce : constPart w0 = constPart w := by
      simpa using hcw
    simp only [constPart, Prod.mk.injEq] at hce
    exact ⟨w0, rfl, hce.1, hce.2.1, hce.2.2⟩

/-- Membership version of worker_const_of_steps. -/
theorem worker_mem_const_of_steps {A B : Type} {cap : Nat} {conv : String → A → B}
    {s0 s : MState A B} (h : Steps cap conv s0 s) {w : Worker A B}
    (hw : w ∈ s.workers) :
    ∃ w0 ∈ s0.workers, w0.tag = w.tag ∧ w0.emitted = w.emitted ∧ w0.closes = w.closes := by
  have hmap := steps_constParts h
  have hm : constPart w ∈ s.workers.map constPart := List.mem_map_of_mem constPart hw
  rw [hmap] at hm
  obtain ⟨w0, hw0, he⟩ := List.mem_map.mp hm
  simp only [constPart, Prod.mk.injEq] at he
  exact ⟨w0, hw0, he.1, he.2.1, he.2.2⟩

theorem initWatchers_skip {A : Type} (xs ys : List (GoIface A)) (v : GoIface A)
    (hv : capableEntry v = none) :
    initWatchers (xs ++ v :: ys) = initWatchers (xs ++ ys) := by
  simp [initWatchers, List.filterMap_append, List.filterMap_cons, hv]

theorem capableEntry_eq_none_of_label {A : Type} {v : GoIface A}
    (h : inferComponentType v = "") : capableEntry v = none := by
  simp [capableEntry, h]

theorem capableEntry_no_watch {A : Type} {p : ProducerModel A}
    (h : p.hasWatchMethod = false ∨ p.watchNumResults = 0) :
    capableEntry (some p) = none := by
  simp only [capableEntry]
  by_cases h1 : inferComponentType (some p) = ""
  · rw [if_pos h1]
  · rw [if_neg h1]
    rcases h with h | h
    · simp [h]
    · by_cases h2 : p.hasWatchMethod = false
      · simp [h2]
      · simp [h2, h]

/-- A run started with no workers keeps the channel empty and delivers
nothing. -/
theorem empty_workers_steps {A B : Type} {cap : Nat} {conv : String → A → B}
    {s0 s : MState A B} (h : Steps cap conv s0 s) (hw : s0.workers = [])
    (hb : s0.buf = []) (hd : s0.delivered = []) :
    s.workers = [] ∧ s.buf = [] ∧ s.delivered = [] := by
  induction h with
  | refl => exact ⟨hw, hb, hd⟩
  | tail h1 h2 ih =>
    obtain ⟨iw, ib, idl⟩ := ih
    cases h2 with
    | recvItem i w c rest hw2 hph hpe =>
      rw [iw] at hw2
      simp at hw2
    | recvClosed i w hw2 hph hpe hcl =>
      rw [iw] at hw2
      simp at hw2
    | sendOk i w b hw2 hph hcap =>
      rw [iw] at hw2
      simp at hw2
    | sendCancel i w b hw2 hph hca =>
      rw [iw] at hw2
      simp at hw2
    | cancel hca => exact ⟨iw, ib, idl⟩
    | consume p rest hbuf =>
      rw [ib] at hbuf
      simp at hbuf
    | closeOut hall hop => exact ⟨iw, ib, idl⟩

/-- A state holding one worker stuck at a receive whose producer neither
emits nor closes, with the context already cancelled, takes no step at
all: the goroutine is blocked forever. -/
theorem stuck_forever {A B : Type} {cap : Nat} {conv : String → A → B}
    {s0 : MState A B} (w : Worker A B)
    (hws : s0.workers = [w]) (hph : w.phase = Phase.recv) (hpe : w.pending = [])
    (hcl : w.closes = false) (hb : s0.buf = []) (hca : s0.cancelled = true) :
    ∀ s, Steps cap conv s0 s → s = s0 := by
  intro s h
  induction h with
  | refl => rfl
  | tail h1 h2 ih =>
    rw [ih] at h2
    cases h2 with
    | recvItem i w2 c rest hw2 hph2 hpe2 =>
      rw [hws] at hw2
      cases i with
      | zero =>
        simp at hw2
        subst hw2
        rw [hpe] at hpe2
        simp at hpe2
      | succ n =>
        simp at hw2
    | recvClosed i w2 hw2 hph2 hpe2 hcl2 =>
      rw [hws] at hw2
      cases i with
      | zero =>
        simp at hw2
        subst hw2
        rw [hcl] at hcl2
        simp at hcl2
      | succ n =>
        simp at hw2
    | sendOk i w2 b hw2 hph2 hcap2 =>
      rw [hws] at hw2
      cases i with
      | zero =>
        simp at hw2
        subst hw2
        rw [hph] at hph2
        simp at hph2
      | succ n =>
        simp at hw2
    | sendCancel i w2 b hw2 hph2 hca2 =>
      rw [hws] at hw2
      cases i with
      | zero =>
        simp at hw2
        subst hw2
        rw [hph] at hph2
        simp at hph2
      | succ n =>
        simp at hw2
    | cancel hca2 =>
      rw [hca] at hca2
      simp at hca2
    | consume p rest hbuf =>
      rw [hb] at hbuf
      simp at hbuf
    | closeOut hall hop =>
      have hdw := hall w (by rw [hws]; exact List.mem_singleton.mpr rfl)
      rw [hph] at hdw
      simp at hdw

/-- Once the output channel has closed, no step changes any worker: no
further sends occur and no background activity of the call remains. -/
theorem closed_frozen {A B : Type} {cap : Nat} {conv : String → A → B}
    {s s2 : MState A B} (hinv : AggInv conv s) (hoc : s.outClosed = true)
    (h : Steps cap conv s s2) :
    s2.workers = s.workers ∧ s2.outClosed = true := by
  induction h with
  | refl => exact ⟨rfl, hoc⟩
  | tail h1 h2 ih =>
    obtain ⟨iw, io⟩ := ih
    have hinvb := inv_steps hinv h1
    have hdone := hinvb.closed_done io
    cases h2 with
    | recvItem i w c rest hw2 hph hpe =>
      have hdw := hdone w (List.getElem?_mem hw2)
      rw [hph] at hdw
      simp at hdw
    | recvClosed i w hw2 hph hpe hcl =>
      have hdw := hdone w (List.getElem?_mem hw2)
      rw [hph] at hdw
      simp at hdw
    | sendOk i w b hw2 hph hcap2 =>
      have hdw := hdone w (List.getElem?_mem hw2)
      rw [hph] at hdw
      simp at hdw
    | sendCancel i w b hw2 hph hca =>
      have hdw := hdone w (List.getElem?_mem hw2)
      rw [hph] at hdw
      simp at hdw
    | cancel hca => exact ⟨iw, io⟩
    | consume p rest hbuf => exact ⟨iw, io⟩
    | closeOut hall hop =>
      rw [io] at hop
      simp at hop

/-- In any invariant state, a worker's send history is an initial
segment of the converted emissions of its producer. -/
theorem sent_front {A B : Type} {conv : String → A → B} {s : MState A B}
    (hinv : AggInv conv s) {w : Worker A B} (hw : w ∈ s.workers) :
    ∃ t, w.emitted.map (conv w.tag) = w.sent ++ t := by
  rcases hinv.emit_front w hw with he | ⟨_, ht⟩
  · exact ⟨phaseList w.phase ++ w.pending.map (conv w.tag), by
      rw [he, List.append_assoc]⟩
  · exact ht

/-- In an invariant state of an uncancelled run, a worker that has
returned has sent exactly the conversions of all its producer's
emissions, in order. -/
theorem done_sent_full {A B : Type} {conv : String → A → B} {s : MState A B}
    (hinv : AggInv conv s) (hca : s.cancelled = false) {w : Worker A B}
    (hw : w ∈ s.workers) (hdone : w.phase = Phase.done) :
    w.sent = w.emitted.map (conv w.tag) := by
  obtain ⟨he, hpd⟩ := hinv.emit_ok hca w hw
  rw [emitEq, hdone, hpd hdone] at he
  simp only [phaseList] at he
  simpa using he.symm

/-- C1: for every producer passed to AggregateWatchers that passes the
capability gate (non-empty label from the Component check, Watch method
found), in any run in which the cancellation token never fires, a
worker that has finished its producer's stream has put exactly one
StateSnapshot on the output channel per StateChange the producer
emitted, in order, with ComponentID and Timestamp copied from the
StateChange, Payload equal to its NewState, and ComponentType equal to
the label obtained from the capability check. -/
theorem C1_watchers_exact_delivery {A : Type} (ws : List (GoIface A))
    (s : MState (StateChange A) (StateSnapshot A)) (i : Nat)
    (w : Worker (StateChange A) (StateSnapshot A))
    (hrun : Steps aggCap mkSnapshot (initWatchers ws) s)
    (hnoca : s.cancelled = false)
    (hw : s.workers[i]? = some w) (hdone : w.phase = Phase.done) :
    outputsOf i s = w.emitted.map (mkSnapshot w.tag) ∧
    (∃ p : ProducerModel A, some p ∈ ws ∧ w.tag = inferComponentType (some p) ∧
      w.emitted = p.transitions) ∧
    (∀ c : StateChange A, mkSnapshot w.tag c =
      { ComponentID := c.ComponentID, ComponentType := w.tag
        Timestamp := c.Timestamp, Payload := c.NewState }) := by
  have hinv := inv_steps (initLike_inv mkSnapshot (initWatchers_initLike ws)) hrun
  have hmem := List.getElem?_mem hw
  refine ⟨?_, ?_, fun c => rfl⟩
  · rw [hinv.out_sent i w hw]
    exact done_sent_full hinv hnoca hmem hdone
  · obtain ⟨w0, hw0, htag, hem, hcl⟩ := worker_const_of_steps hrun hw
    have hw0mem : w0 ∈ (initWatchers ws).workers := List.getElem?_mem hw0
    obtain ⟨v, hv, he⟩ := List.mem_filterMap.mp hw0mem
    obtain ⟨p, hp1, hp2, hp3, hp4, hwk⟩ := capableEntry_eq_some he
    subst hp1
    refine ⟨p, hv, ?_, ?_⟩
    · rw [← htag, hwk]
      rfl
    · rw [← hem, hwk]
      rfl

theorem C1_watchers_exact_delivery_witness :
    Steps aggCap mkSnapshot (initWatchers c1Ws) c1Final ∧
    c1Final.cancelled = false ∧
    c1Final.workers[0]? = some { c1W with phase := Phase.done } ∧
    outputsOf 0 c1Final =
      ({ c1W with phase := Phase.done }).emitted.map
        (mkSnapshot ({ c1W with phase := Phase.done }).tag) := by
  have hrun : Steps aggCap mkSnapshot (initWatchers c1Ws) c1Final :=
    Relation.ReflTransGen.single
      (Step.recvClosed (initWatchers c1Ws) 0 c1W (by decide) rfl rfl rfl)
  have hw : c1Final.workers[0]? = some { c1W with phase := Phase.done } := by decide
  exact ⟨hrun, rfl, hw,
    (C1_watchers_exact_delivery c1Ws c1Final 0 _ hrun rfl hw rfl).1⟩

/-- C3: a producer that fails the component-type capability check, or
whose Watch method is missing (or returns no results), is skipped
silently by AggregateWatchers: it yields no worker, the resulting state
of the call is identical to the one for the producer list without it,
and hence every snapshot from the remaining capable producers is still
delivered; no error can occur (the model is total). -/
theorem C3_incapable_skipped {A : Type} (xs ys : List (GoIface A)) (v : GoIface A)
    (hv : inferComponentType v = "" ∨
      (∃ p : ProducerModel A, v = some p ∧
        (p.hasWatchMethod = false ∨ p.watchNumResults = 0))) :
    capableEntry v = none ∧
    initWatchers (xs ++ v :: ys) = initWatchers (xs ++ ys) ∧
    (∀ s, Steps aggCap mkSnapshot (initWatchers (xs ++ v :: ys)) s ↔
      Steps aggCap mkSnapshot (initWatchers (xs ++ ys)) s) := by
  have hnone : capableEntry v = none := by
    rcases hv with h | ⟨p, rfl, h⟩
    · exact capableEntry_eq_none_of_label h
    · exact capableEntry_no_watch h
  have heq := initWatchers_skip xs ys v hnone
  exact ⟨hnone, heq, fun s => by rw [heq]⟩

theorem C3_incapable_skipped_witness :
    @capableEntry Nat none = none ∧
    initWatchers ([some c3Prod] ++ none :: ([] : List (GoIface Nat))) =
      initWatchers ([some c3Prod] ++ ([] : List (GoIface Nat))) := by
  have h := C3_incapable_skipped [some c3Prod] [] none (Or.inl rfl)
  exact ⟨h.1, h.2.1⟩

/-- C4: for both AggregateWatchers and AggregateEvents, the output
channel is closed only after every spawned worker goroutine has exited:
in every reachable state with the output closed, every worker has
returned, so no worker can still send. -/
theorem C4_close_only_after_exit {A : Type} :
    (∀ (ws : List (GoIface A)) s, Steps aggCap mkSnapshot (initWatchers ws) s →
      s.outClosed = true → AllDone s) ∧
    (∀ (srcs : List EventSourceModel) s, Steps aggCap eventConv (initEvents srcs) s →
      s.outClosed = true → AllDone s) := by
  constructor
  · intro ws s h hoc
    exact (inv_steps (initLike_inv mkSnapshot (initWatchers_initLike ws)) h).closed_done hoc
  · intro srcs s h hoc
    exact (inv_steps (initLike_inv eventConv (initEvents_initLike srcs)) h).closed_done hoc

theorem C4_close_only_after_exit_witness :
    Steps aggCap mkSnapshot (initWatchers ([] : List (GoIface Nat))) c4Closed ∧
    c4Closed.outClosed = true ∧ AllDone c4Closed ∧
    Steps aggCap eventConv (initEvents []) c4ClosedE ∧
    c4ClosedE.outClosed = true ∧ AllDone c4ClosedE := by
  have h1 : Steps aggCap mkSnapshot (initWatchers ([] : List (GoIface Nat))) c4Closed :=
    Relation.ReflTransGen.single
      (Step.closeOut (initWatchers ([] : List (GoIface Nat))) (by decide) rfl)
  have h2 : Steps aggCap eventConv (initEvents []) c4ClosedE :=
    Relation.ReflTransGen.single (Step.closeOut (initEvents []) (by decide) rfl)
  exact ⟨h1, rfl, (@C4_close_only_after_exit Nat).1 [] c4Closed h1 rfl,
    h2, rfl, (@C4_close_only_after_exit Nat).2 [] c4ClosedE h2 rfl⟩

/-- C8: for every participating producer, the items attributed to it on
the aggregated output channel are exactly its worker's successful sends
in order, and those sends are an initial segment of the producer's
emissions (converted), for both AggregateWatchers and AggregateEvents:
per-producer FIFO order is preserved end to end.  No ordering across
different producers is constrained by the step relation. -/
theorem C8_fifo_per_producer {A : Type} :
    (∀ (ws : List (GoIface A)) s i (w : Worker (StateChange A) (StateSnapshot A)),
      Steps aggCap mkSnapshot (initWatchers ws) s → s.workers[i]? = some w →
      outputsOf i s = w.sent ∧
      ∃ t, w.emitted.map (mkSnapshot w.tag) = w.sent ++ t) ∧
    (∀ (srcs : List EventSourceModel) s i (w : Worker ComponentEvent ComponentEvent),
      Steps aggCap eventConv (initEvents srcs) s → s.workers[i]? = some w →
      outputsOf i s = w.sent ∧
      ∃ t, w.emitted.map (eventConv w.tag) = w.sent ++ t) := by
  constructor
  · intro ws s i w hrun hw
    have hinv := inv_steps (initLike_inv mkSnapshot (initWatchers_initLike ws)) hrun
    exact ⟨hinv.out_sent i w hw, sent_front hinv (List.getElem?_mem hw)⟩
  · intro srcs s i w hrun hw
    have hinv := inv_steps (initLike_inv eventConv (initEvents_initLike srcs)) hrun
    exact ⟨hinv.out_sent i w hw, sent_front hinv (List.getElem?_mem hw)⟩

theorem C8_fifo_per_producer_witness :
    (initWatchers c8Ws).workers[0]? = some c8W ∧
    outputsOf 0 (initWatchers c8Ws) = c8W.sent ∧
    ∃ t, c8W.emitted.map (mkSnapshot c8W.tag) = c8W.sent ++ t := by
  have hw : (initWatchers c8Ws).workers[0]? = some c8W := by decide
  have h := (@C8_fifo_per_producer Nat).1 c8Ws (initWatchers c8Ws) 0 c8W
    Relation.ReflTransGen.refl hw
  exact ⟨hw, h.1, h.2⟩

/-- C9: a producer that implements the Component interface but whose
ComponentType method returns the empty string is skipped by
AggregateWatchers exactly as if it lacked the capability entirely: the
label check yields the empty string, the gate rejects it before the
Watch lookup (so for every value of hasWatchMethod and transitions it
contributes no worker), and the aggregation state equals the one
without it. -/
theorem C9_empty_label_skipped {A : Type} (xs ys : List (GoIface A))
    (p : ProducerModel A) (hp : p.componentType = some "") :
    inferComponentType (some p) = "" ∧
    capableEntry (some p) = none ∧
    initWatchers (xs ++ some p :: ys) = initWatchers (xs ++ ys) := by
  have h1 : inferComponentType (some p) = "" := by
    simp [inferComponentType, hp]
  exact ⟨h1, capableEntry_eq_none_of_label h1,
    initWatchers_skip xs ys _ (capableEntry_eq_none_of_label h1)⟩

theorem C9_empty_label_skipped_witness :
    c9Prod.componentType = some "" ∧ c9Prod.hasWatchMethod = true ∧
    capableEntry (some c9Prod) = none ∧
    initWatchers ([] ++ some c9Prod :: ([] : List (GoIface Nat))) =
      initWatchers ([] ++ ([] : List (GoIface Nat))) := by
  have h := C9_empty_label_skipped [] [] c9Prod rfl
  exact ⟨rfl, rfl, h.2.1, h.2.2⟩

/-- C5: every StateSnapshot emitted by a WatcherAdapter constructed with
a given label carries exactly that label as its ComponentType,
regardless of the label the wrapped watcher itself reports or the
ComponentType carried by the incoming StateChange, and the snapshot's
ComponentID and Timestamp are copied from the StateChange with Payload
set to its NewState. -/
theorem C5_adapter_label {A : Type} (a : WatcherAdapter A)
    (s : MState (StateChange A) (StateSnapshot A))
    (hrun : Steps adapterCap mkSnapshot (initAdapter a) s)
    (w : Worker (StateChange A) (StateSnapshot A)) (hw : w ∈ s.workers)
    (snap : StateSnapshot A) (hs : snap ∈ w.sent) :
    snap.ComponentType = a.componentType ∧
    ∃ c ∈ a.watcher.transitions,
      snap = { ComponentID := c.ComponentID, ComponentType := a.componentType,
               Timestamp := c.Timestamp, Payload := c.NewState } := by
  have hinv := inv_steps (initLike_inv mkSnapshot (initAdapter_initLike a)) hrun
  obtain ⟨t, ht⟩ := sent_front hinv hw
  have hmm : snap ∈ w.emitted.map (mkSnapshot w.tag) := by
    rw [ht]
    exact List.mem_append_left t hs
  obtain ⟨c, hc, hsnap⟩ := List.mem_map.mp hmm
  obtain ⟨w0, hw0, htag, hem, hclw⟩ := worker_mem_const_of_steps hrun hw
  have hw0eq : w0 = mkWorker a.componentType a.watcher.transitions a.watcher.closes := by
    simpa [initAdapter] using hw0
  have htag2 : w.tag = a.componentType := by
    rw [← htag, hw0eq]
    rfl
  have hem2 : w.emitted = a.watcher.transitions := by
    rw [← hem, hw0eq]
    rfl
  subst hsnap
  rw [hem2] at hc
  refine ⟨by simp [mkSnapshot, htag2], c, hc, ?_⟩
  simp [mkSnapshot, htag2]

theorem C5_adapter_label_witness :
    Steps adapterCap mkSnapshot (initAdapter c5A) c5Final ∧
    c5W ∈ c5Final.workers ∧ c5Snap ∈ c5W.sent ∧
    c5C.ComponentType = "other-label" ∧
    c5A.watcher.componentType = some "watcher-label" ∧
    c5Snap.ComponentType = c5A.componentType ∧
    (∃ c ∈ c5A.watcher.transitions,
      c5Snap = { ComponentID := c.ComponentID, ComponentType := c5A.componentType,
                 Timestamp := c.Timestamp, Payload := c.NewState }) := by
  have step1 : Step adapterCap mkSnapshot (initAdapter c5A) c5Mid :=
    Step.recvItem (initAdapter c5A) 0 (mkWorker "adapter-label" [c5C] true) c5C []
      (by decide) rfl rfl
  have step2 : Step adapterCap mkSnapshot c5Mid c5Final :=
    Step.sendOk c5Mid 0 c5WMid c5Snap (by decide) rfl (by decide)
  have hrun : Steps adapterCap mkSnapshot (initAdapter c5A) c5Final :=
    Relation.ReflTransGen.tail (Relation.ReflTransGen.single step1) step2
  have h := C5_adapter_label c5A c5Final hrun c5W (by decide) c5Snap (by decide)
  exact ⟨hrun, by decide, by decide, rfl, rfl, h.1, h.2⟩

/-- C6: calling AggregateWatchers with a producer list in which no
producer passes the capability gate (in particular the empty list), or
AggregateEvents with an empty source list, yields a run that never
delivers a value and can always close its output channel; no error is
possible (the model is total). -/
theorem C6_no_producers {A : Type} (ws : List (GoIface A))
    (hv : ws.filterMap capableEntry = []) :
    (∀ s, Steps aggCap mkSnapshot (initWatchers ws) s →
      s.delivered = [] ∧ s.buf = [] ∧
      ∃ s2, Steps aggCap mkSnapshot s s2 ∧ s2.outClosed = true) ∧
    (∀ s, Steps aggCap eventConv (initEvents []) s →
      s.delivered = [] ∧ s.buf = [] ∧
      ∃ s2, Steps aggCap eventConv s s2 ∧ s2.outClosed = true) := by
  constructor
  · intro s hs
    have h3 := empty_workers_steps hs hv rfl rfl
    refine ⟨h3.2.2, h3.2.1, ?_⟩
    obtain ⟨s2, h2, hd2, ho2⟩ := @exists_closing_run (StateChange A) (StateSnapshot A)
      aggCap mkSnapshot (by decide) s (by rw [h3.1]; intro w hw; simp at hw)
    exact ⟨s2, h2, ho2⟩
  · intro s hs
    have h3 := empty_workers_steps hs rfl rfl rfl
    refine ⟨h3.2.2, h3.2.1, ?_⟩
    obtain ⟨s2, h2, hd2, ho2⟩ := @exists_closing_run ComponentEvent ComponentEvent
      aggCap eventConv (by decide) s (by rw [h3.1]; intro w hw; simp at hw)
    exact ⟨s2, h2, ho2⟩

theorem C6_no_producers_witness :
    c6Ws.filterMap capableEntry = [] ∧
    ((initWatchers c6Ws).delivered = [] ∧ (initWatchers c6Ws).buf = [] ∧
      ∃ s2, Steps aggCap mkSnapshot (initWatchers c6Ws) s2 ∧ s2.outClosed = true) ∧
    ((initEvents []).delivered = [] ∧ (initEvents []).buf = [] ∧
      ∃ s2, Steps aggCap eventConv (initEvents []) s2 ∧ s2.outClosed = true) := by
  have h := C6_no_producers c6Ws (by decide)
  exact ⟨by decide, h.1 (initWatchers c6Ws) Relation.ReflTransGen.refl,
    h.2 (initEvents []) Relation.ReflTransGen.refl⟩

/-- C10: a nil interface value in the producer list never makes
AggregateWatchers panic: the label check maps nil to the empty string,
so the setup loop skips the entry before any reflective method lookup
(the model is total and the nil case is eliminated at the first check),
the aggregation state equals the one without the nil entry, and when
the remaining producers close their channels the output still closes
cleanly. -/
theorem C10_nil_skipped_safe {A : Type} (xs ys : List (GoIface A))
    (hcl : ∀ v ∈ xs ++ ys, ∀ p : ProducerModel A, v = some p → p.closes = true) :
    @inferComponentType A none = "" ∧
    @capableEntry A none = none ∧
    initWatchers (xs ++ none :: ys) = initWatchers (xs ++ ys) ∧
    ∃ s, Steps aggCap mkSnapshot (initWatchers (xs ++ none :: ys)) s ∧
      AllDone s ∧ s.outClosed = true := by
  have hnone : @capableEntry A none = none := capableEntry_eq_none_of_label rfl
  have heq := initWatchers_skip xs ys none hnone
  refine ⟨rfl, hnone, heq, ?_⟩
  rw [heq]
  have hccl : ∀ w ∈ (initWatchers (xs ++ ys)).workers, w.closes = true := by
    intro w hw
    obtain ⟨v, hvm, he⟩ := List.mem_filterMap.mp hw
    obtain ⟨p, hp1, hp2, hp3, hp4, hwk⟩ := capableEntry_eq_some he
    subst hp1
    rw [hwk]
    exact hcl (some p) hvm p rfl
  obtain ⟨s2, h2, hd2, ho2⟩ := @exists_closing_run (StateChange A) (StateSnapshot A)
    aggCap mkSnapshot (by decide) (initWatchers (xs ++ ys)) hccl
  exact ⟨s2, h2, hd2, ho2⟩

theorem C10_nil_skipped_safe_witness :
    @inferComponentType Nat none = "" ∧
    initWatchers ([] ++ none :: [some c10Prod]) = initWatchers ([] ++ [some c10Prod]) ∧
    ∃ s, Steps aggCap mkSnapshot (initWatchers ([] ++ none :: [some c10Prod])) s ∧
      AllDone s ∧ s.outClosed = true := by
  have h := C10_nil_skipped_safe [] [some c10Prod]
    (by intro v hv p hp; simp at hv; subst hv; cases hp; rfl)
  exact ⟨h.1, h.2.2.1, h.2.2.2⟩

/-- C2 counterexample: the claim fails on the code for a producer whose
transition channel is never closed.  From an AggregateWatchers call on
one capable producer that emits nothing and never closes its channel,
after the cancellation token fires the resulting state takes no step at
all: the worker stays blocked in its receive forever (the receive is
not raced against ctx.Done), so it does not exit within bounded time. -/
theorem C2_counterexample :
    Steps aggCap mkSnapshot (initWatchers c2Ws) c2Stuck ∧
    c2Stuck.cancelled = true ∧
    c2Stuck.workers = [c2W] ∧ c2W.phase ≠ Phase.done ∧
    ∀ s, Steps aggCap mkSnapshot c2Stuck s → s = c2Stuck := by
  refine ⟨Relation.ReflTransGen.single (Step.cancel (initWatchers c2Ws) rfl),
    rfl, by decide, by decide, ?_⟩
  intro s h
  exact stuck_forever c2W (by decide) rfl rfl rfl rfl rfl s h

/-- C2 amended: after the shared cancellation token fires, every worker
whose producer eventually closes its channel exits within bounded time:
every stuck state reachable from a cancelled state with such producers
has all workers returned and the output closed, and every execution
takes at most stateMeasure steps.  A worker blocked at a send is
abandoned by the select; only a worker blocked receiving from a
producer that never closes its channel (violating the TypedWatcher
contract) can block past cancellation. -/
theorem C2_amended_cancelled_exit {A : Type}
    (s : MState (StateChange A) (StateSnapshot A))
    (hca : s.cancelled = true)
    (hccl : ∀ w ∈ s.workers, w.closes = true) :
    (∀ s2, Steps aggCap mkSnapshot s s2 → (∀ s3, ¬ Step aggCap mkSnapshot s2 s3) →
      AllDone s2 ∧ s2.outClosed = true) ∧
    (∀ n s2, StepsN aggCap mkSnapshot n s s2 → n ≤ stateMeasure s) := by
  constructor
  · intro s2 h2 hstuck
    exact stuck_closed (steps_cancelled_mono h2 hca) (closes_all_steps h2 hccl) hstuck
  · intro n s2 hn
    have h := stepsN_le_measure hn
    omega

theorem C2_amended_cancelled_exit_witness :
    c2Closing.cancelled = true ∧ (∀ w ∈ c2Closing.workers, w.closes = true) ∧
    ((∀ s2, Steps aggCap mkSnapshot c2Closing s2 →
        (∀ s3, ¬ Step aggCap mkSnapshot s2 s3) → AllDone s2 ∧ s2.outClosed = true) ∧
      (∀ n s2, StepsN aggCap mkSnapshot n c2Closing s2 → n ≤ stateMeasure c2Closing)) :=
  ⟨rfl, by decide, C2_amended_cancelled_exit c2Closing rfl (by decide)⟩

/-- C7 counterexample: the claim fails on the code when the cancellation
token fires first while the wrapped watcher's stream stays open and
silent.  For an adapter over such a watcher, the state after
cancellation takes no step at all: the goroutine stays blocked in its
receive and the output channel never closes, so the stream does not
close when cancellation fires first. -/
theorem C7_counterexample :
    Steps adapterCap mkSnapshot (initAdapter c7A) c7Stuck ∧
    c7Stuck.cancelled = true ∧
    ∀ s, Steps adapterCap mkSnapshot c7Stuck s → s = c7Stuck ∧ s.outClosed = false := by
  refine ⟨Relation.ReflTransGen.single (Step.cancel (initAdapter c7A) rfl), rfl, ?_⟩
  intro s h
  have he := stuck_forever c7W (by decide) rfl rfl rfl rfl rfl s h
  exact ⟨he, by rw [he]; rfl⟩

/-- C7 amended: a WatcherAdapter's Snapshots stream exits and closes
when the wrapped watcher's input stream closes, and a send blocked past
cancellation is abandoned (exiting the goroutine); cancellation alone
does not force an exit while the goroutine waits on an input stream
that never closes — closing relies on the watcher's contract.  After
the output channel closes, the workers are frozen: no further sends
occur and no background activity of the call remains. -/
theorem C7_amended_adapter_exit {A : Type} (a : WatcherAdapter A)
    (hcl : a.watcher.closes = true) :
    (∃ s, Steps adapterCap mkSnapshot (initAdapter a) s ∧ AllDone s ∧
      s.outClosed = true) ∧
    (∀ s s2, Steps adapterCap mkSnapshot (initAdapter a) s → s.outClosed = true →
      Steps adapterCap mkSnapshot s s2 → s2.workers = s.workers ∧ s2.outClosed = true) ∧
    (∀ s i (w : Worker (StateChange A) (StateSnapshot A)) b,
      s.workers[i]? = some w → w.phase = Phase.send b → s.cancelled = true →
      Step adapterCap mkSnapshot s
        ({ s with workers := (s.workers.set i { w with phase := Phase.done }) })) := by
  refine ⟨?_, ?_, ?_⟩
  · have hccl : ∀ w ∈ (initAdapter a).workers, w.closes = true := by
      intro w hw
      simp only [initAdapter, List.mem_singleton] at hw
      subst hw
      exact hcl
    exact @exists_closing_run (StateChange A) (StateSnapshot A) adapterCap mkSnapshot
      (by decide) (initAdapter a) hccl
  · intro s s2 h1 hoc h2
    have hinv := inv_steps (initLike_inv mkSnapshot (initAdapter_initLike a)) h1
    exact closed_frozen hinv hoc h2
  · intro s i w b hw hph hca
    exact Step.sendCancel s i w b hw hph hca

theorem C7_amended_adapter_exit_witness :
    c7B.watcher.closes = true ∧
    ((∃ s, Steps adapterCap mkSnapshot (initAdapter c7B) s ∧ AllDone s ∧
        s.outClosed = true) ∧
      (∀ s s2, Steps adapterCap mkSnapshot (initAdapter c7B) s → s.outClosed = true →
        Steps adapterCap mkSnapshot s s2 → s2.workers = s.workers ∧ s2.outClosed = true) ∧
      (∀ s i (w : Worker (StateChange Nat) (StateSnapshot Nat)) b,
        s.workers[i]? = some w → w.phase = Phase.send b → s.cancelled = true →
        Step adapterCap mkSnapshot s
          ({ s with workers := (s.workers.set i { w with phase := Phase.done }) }))) :=
  ⟨rfl, C7_amended_adapter_exit c7B rfl⟩

end Introspection
